import Mathlib

/-!
Verification of the ueberDB key/value facade and its backends, by a shallow
embedding of the JavaScript source into Lean 4.

Embedded code:
* the facade (`Database` constructor, per-key dispatch, `doOperation`, `clone`);
* the MySQL backend (`_get`, `_set`, `_findKeys`, `_doBulk`, constructor);
* the Cassandra backend (`close`);
* the LevelDB backend (`get`, `doBulk`, `close`).

The per-key serializer (the external `channels` package) and the
cache-and-buffer layer are not part of the source tree; where a property
depends on them they are modelled from the specification, and the model is
marked as such in its doc comment.
-/

namespace UeberDB

/-! ## JavaScript value domain

JSON-compatible JavaScript values: `null`, booleans, numbers, strings,
`Date` objects (identified by their epoch time), arrays, and plain objects
(ordered own-property lists). -/

inductive JsValue where
  | jnull : JsValue
  | jbool : Bool → JsValue
  | jnum : Int → JsValue
  | jstr : String → JsValue
  | jdate : Int → JsValue
  | jarr : List JsValue → JsValue
  | jobj : List (String × JsValue) → JsValue

/-! ## The facade's `clone` (src/unnamed/part_000, lines 160-190)

`clone` returns primitives (and `null`) unchanged, copies a `Date` by its
time, copies an array element-wise and an object own-property-wise. -/

mutual

def clone : JsValue → JsValue
  | .jnull => .jnull
  | .jbool b => .jbool b
  | .jnum n => .jnum n
  | .jstr s => .jstr s
  | .jdate t => .jdate t
  | .jarr l => .jarr (cloneList l)
  | .jobj l => .jobj (cloneProps l)

def cloneList : List JsValue → List JsValue
  | [] => []
  | x :: xs => clone x :: cloneList xs

def cloneProps : List (String × JsValue) → List (String × JsValue)
  | [] => []
  | (k, v) :: xs => (k, clone v) :: cloneProps xs

end

/-! ## The facade `set`/`get` ingress boundary (src/unnamed/part_000)

`Database.prototype.set` clones the value before handing it to the layer
(line 83: `value: clone(value)`), so the stored value is the value at call
time; later mutation of the caller's argument cannot reach it. -/

def facadeStoreSet (store : String → Option JsValue) (key : String) (value : JsValue) :
    String → Option JsValue :=
  fun k => if k = key then some (clone value) else store k

def facadeStoreGet (store : String → Option JsValue) (key : String) : Option JsValue :=
  (store key).map clone

end UeberDB

namespace UeberDB

/-! ## The facade constructor (src/unnamed/part_000, lines 35-49)

`exports.Database = function (type, dbSettings, wrapperSettings, logger)`:
a falsy `type` (absent or the empty string) is replaced by `'sqlite'` and
both settings arguments are reset to `null`; the backend module is then
loaded from `./databases/${type}_db`. -/

/-- JavaScript truthiness of an optional string: `undefined`/`null` and the
empty string are falsy, every other string is truthy. -/
def jsTruthyStr : Option String → Bool
  | none => false
  | some s => s ≠ ""

structure FacadeConfig where
  type : String
  moduleName : String
  dbSettings : Option String
  wrapperSettings : Option String

def facadeNew (type : Option String) (dbSettings wrapperSettings : Option String) :
    FacadeConfig :=
  if jsTruthyStr type then
    { type := type.getD ""
      moduleName := "./databases/" ++ type.getD "" ++ "_db"
      dbSettings := dbSettings
      wrapperSettings := wrapperSettings }
  else
    { type := "sqlite"
      moduleName := "./databases/sqlite_db"
      dbSettings := none
      wrapperSettings := none }

/-! ## The MySQL backend constructor (src/databases/mysql_db.js, lines 20-51)

The constructor defaults `settings.charset` to `'utf8mb4'` when it is falsy,
then unconditionally sets `settings.engine = 'InnoDB'`,
`settings.cache = 500`, `settings.writeInterval = 100`,
`settings.json = true`. -/

structure MysqlSettingsIn where
  charset : Option String
  engine : Option String
  cache : Option Nat
  writeInterval : Option Nat
  json : Option Bool

structure MysqlSettingsOut where
  charset : Option String
  engine : Option String
  cache : Option Nat
  writeInterval : Option Nat
  json : Option Bool

def mysqlNew (s : MysqlSettingsIn) : MysqlSettingsOut :=
  let charset := if jsTruthyStr s.charset then s.charset else some "utf8mb4"
  { charset := charset
    engine := some "InnoDB"
    cache := some 500
    writeInterval := some 100
    json := some true }

/-! ## The facade's per-key dispatcher `doOperation`
(src/unnamed/part_000, lines 95-154)

Each branch of `doOperation` runs the layer operation and, in its completion
continuation, invokes the caller's callback and the queue-release callback in
a branch-specific order.  The embedding records that order as a list of
events: for `get`, `findKeys` and `getsub` the continuation calls
`operation.callback(err, value)` and then the queue callback; for `set`,
`remove` and `setsub` it calls the queue callback and then (when provided)
`operation.bufferCallback(err)`. -/

inductive OpType where
  | get | findKeys | remove | set | getsub | setsub
deriving DecidableEq

inductive CbEvent where
  | callerResult   -- `operation.callback(err, value)`
  | queueRelease   -- the queue callback `callback()`
  | bufferAccepted -- `operation.bufferCallback(err)`
deriving DecidableEq

/-- The sequence of callback invocations made by the completion continuation
of each `doOperation` branch.  `hasBufferCallback` models whether the caller
passed a `bufferCallback` (the write branches guard on it). -/
def doOperationEvents (type : OpType) (hasBufferCallback : Bool) : List CbEvent :=
  match type with
  | .get => [.callerResult, .queueRelease]
  | .remove => .queueRelease :: (if hasBufferCallback then [.bufferAccepted] else [])
  | .findKeys => [.callerResult, .queueRelease]
  | .set => .queueRelease :: (if hasBufferCallback then [.bufferAccepted] else [])
  | .getsub => [.callerResult, .queueRelease]
  | .setsub => .queueRelease :: (if hasBufferCallback then [.bufferAccepted] else [])

/-! ## Backend `get` (src/databases/mysql_db.js lines 161-168,
src/leveldb_db.js lines 78-83)

The MySQL `_get` runs `SELECT value FROM store WHERE key = ? AND
BINARY key = ?` and returns `results.length === 1 ? results[0].value : null`;
the table is modelled as a row list.  The LevelDB `get` forwards the binding's
value through `value ? value : null`, so a falsy stored value (the empty
string) is also mapped to `null`. -/

def mysqlGet (rows : List (String × String)) (key : String) : Option String :=
  match rows.filter (fun r => r.1 == key) with
  | [r] => some r.2
  | _ => none

def leveldbGet (store : String → Option String) (key : String) : Option String :=
  match store key with
  | some v => if v ≠ "" then some v else none
  | none => none

/-! ## Backend `doBulk` (src/databases/mysql_db.js lines 225-262,
src/leveldb_db.js lines 95-108)

A bulk is a list of `{type, key, value?}` operations.  The LevelDB backend
walks the list in order, turning each `set` into a batch `put` and each
`remove` into a batch `del`, and writes the batch (the binding applies batch
actions in list order).  The MySQL backend instead concatenates all `set`
operations into one `REPLACE INTO store VALUES …` statement and all `remove`
keys into one `DELETE FROM store WHERE key IN (…)` statement and runs the two
statements through `Promise.all`, i.e. concurrently: their effects may land
in either order, which `mysqlDoBulk`'s `deleteLast` parameter makes
explicit. -/

inductive BulkType where
  | set | remove
deriving DecidableEq

structure BulkOp where
  type : BulkType
  key : String
  value : String
deriving DecidableEq

/-- Effect of a single operation on the store (`REPLACE` / `DELETE` of one
key, or one batch `put` / `del`). -/
def applyOp (st : String → Option String) (op : BulkOp) : String → Option String :=
  fun k => if k = op.key then (match op.type with
    | .set => some op.value
    | .remove => none) else st k

/-- The spec's submission-order semantics of a bulk: the operations applied
one after the other, first list element first. -/
def applyInOrder (st : String → Option String) (bulk : List BulkOp) :
    String → Option String :=
  bulk.foldl applyOp st

inductive BatchAction where
  | put (key value : String)
  | del (key : String)

/-- The batch built by the LevelDB `doBulk` loop, in list order. -/
def leveldbBatchOf : List BulkOp → List BatchAction
  | [] => []
  | op :: rest =>
    (match op.type with
      | .set => BatchAction.put op.key op.value
      | .remove => BatchAction.del op.key) :: leveldbBatchOf rest

def applyBatchAction (st : String → Option String) :
    BatchAction → String → Option String
  | .put key value => fun k => if k = key then some value else st k
  | .del key => fun k => if k = key then none else st k

def leveldbDoBulk (st : String → Option String) (bulk : List BulkOp) :
    String → Option String :=
  (leveldbBatchOf bulk).foldl applyBatchAction st

/-- The `(key, value)` rows of the single `REPLACE` statement, in the order
the `doBulk` loop appends them. -/
def mysqlReplaceRows (bulk : List BulkOp) : List (String × String) :=
  (bulk.filter (fun op => op.type == BulkType.set)).map (fun op => (op.key, op.value))

/-- The keys of the single `DELETE … WHERE key IN (…)` statement. -/
def mysqlDeleteKeys (bulk : List BulkOp) : List String :=
  (bulk.filter (fun op => op.type == BulkType.remove)).map (fun op => op.key)

/-- Effect of the `REPLACE` statement: its rows inserted-or-replaced in row
order (with duplicate keys, the later row wins). -/
def applyReplace (st : String → Option String) (rows : List (String × String)) :
    String → Option String :=
  rows.foldl (fun st r => fun k => if k = r.1 then some r.2 else st k) st

/-- Effect of the `DELETE … WHERE key IN (…)` statement. -/
def applyDelete (st : String → Option String) (keys : List String) :
    String → Option String :=
  fun k => if k ∈ keys then none else st k

/-- The MySQL `_doBulk`: both statements are issued through `Promise.all`,
so the database may serialize them in either order; `deleteLast` selects
which statement's effect lands last. -/
def mysqlDoBulk (deleteLast : Bool) (st : String → Option String)
    (bulk : List BulkOp) : String → Option String :=
  if deleteLast then applyDelete (applyReplace st (mysqlReplaceRows bulk)) (mysqlDeleteKeys bulk)
  else applyReplace (applyDelete st (mysqlDeleteKeys bulk)) (mysqlReplaceRows bulk)

/-- No key carries both a `set` and a `remove` operation in the bulk (true
of every bulk the write buffer emits, which holds at most one pending
operation per key). -/
def noMixedKey (bulk : List BulkOp) : Prop :=
  ∀ o1 ∈ bulk, ∀ o2 ∈ bulk, o1.key = o2.key → o1.type = o2.type

instance (bulk : List BulkOp) : Decidable (noMixedKey bulk) := by
  unfold noMixedKey; infer_instance

/-- Pointwise effect of one bulk operation on the value stored at key `k`. -/
def opStep (k : String) (v : Option String) (op : BulkOp) : Option String :=
  if k = op.key then (match op.type with
    | .set => some op.value
    | .remove => none) else v

/-- Pointwise effect of one `REPLACE` row on the value stored at key `k`. -/
def rowStep (k : String) (v : Option String) (r : String × String) : Option String :=
  if k = r.1 then some r.2 else v

/-- A LevelDB store holding the single key `"k"` with the empty string as
its value. -/
def storeWithEmptyString : String → Option String :=
  fun k => if k = "k" then some "" else none

/-! ## Backend `findKeys` pattern matching (src/databases/mysql_db.js,
lines 174-194)

`_findKeys` translates the glob pattern with `key.replace(/\*/g, '%')` and
selects `WHERE key LIKE ?` (and `AND key NOT LIKE ?` when `notKey` is
given).  `likeMatch` is MySQL `LIKE` matching: `%` matches any run of
characters, `_` matches exactly one character, the default escape character
`\` is stripped and makes the following character literal (so `\%` matches
`%` and `a\b` matches `ab`; an escape character at the end of the pattern
matches a literal `\`), and every other character matches only itself. -/

def likeMatch : List Char → List Char → Bool
  | [], [] => true
  | [], _ :: _ => false
  | c :: p, [] => c == '%' && likeMatch p []
  | c :: p, x :: s =>
    if c == '\\' then
      match p with
      | [] => x == '\\' && s.isEmpty
      | d :: p' => d == x && likeMatch p' s
    else if c == '%' then likeMatch p (x :: s) || likeMatch (c :: p) s
    else if c == '_' then likeMatch p s
    else c == x && likeMatch p s
termination_by p s => p.length + s.length

/-- The `key.replace(/\*/g, '%')` translation. -/
def likeTranslate (p : List Char) : List Char :=
  p.map (fun c => if c == '*' then '%' else c)

/-- The MySQL `_findKeys`: the stored keys selected by
`key LIKE translate(pattern)` and, when `notKey` is given,
`key NOT LIKE translate(notKey)`. -/
def mysqlFindKeys (storedKeys : List String) (pattern : String)
    (notKey : Option String) : List String :=
  storedKeys.filter (fun k =>
    likeMatch (likeTranslate pattern.data) k.data &&
    notKey.all (fun nk => !likeMatch (likeTranslate nk.data) k.data))

/-- The claim's glob matching: `*` matches any run of characters, every
other character is literal. -/
def globMatch : List Char → List Char → Bool
  | [], [] => true
  | [], _ :: _ => false
  | c :: p, [] => c == '*' && globMatch p []
  | c :: p, x :: s =>
    if c == '*' then globMatch p (x :: s) || globMatch (c :: p) s
    else c == x && globMatch p s
termination_by p s => p.length + s.length

/-- The claim's specification of `findKeys`: exactly the stored keys that
match the glob `pattern` and do not match `notKey`. -/
def specFindKeys (storedKeys : List String) (pattern : String)
    (notKey : Option String) : List String :=
  storedKeys.filter (fun k =>
    globMatch pattern.data k.data &&
    notKey.all (fun nk => !globMatch nk.data k.data))

/-! ## The Cassandra backend `findKeys` (src/databases/mysql_db.js,
lines 393-441)

With a falsy `notKey`, the Cassandra `findKeys` fetches all keys and keeps
those accepted by the JavaScript regular expression
`new RegExp('^' + key.replace(/\*/g, '.*') + '$')` — the translation leaves
every other regex metacharacter unescaped.  With `notKey === '*:*:*'` it
serves the query from a backend-private `ueberdb:keys:<prefix>` index
column (or errors when the pattern is not of the form `prefix:*`).  With
any other truthy `notKey` it reports
`Error('Cassandra db currently only supports *:*:* as notKey')` instead of
returning keys.

The regex engine is an external JavaScript builtin; it is modelled on the
fragment the translated patterns can produce — literal characters, `.`
(any one character) and `.*` (any run) — and any pattern outside that
fragment is mapped to `outsideModel` rather than given made-up
semantics. -/

/-- The characters the JavaScript regex engine treats specially (besides
`.`, which the parser below handles on its own). -/
def regexMetachar (c : Char) : Bool :=
  c == '*' || c == '+' || c == '?' || c == '(' || c == ')' || c == '[' || c == ']' ||
  c == '\x7b' || c == '\x7d' || c == '^' || c == '$' || c == '|' || c == '\\' || c == '/'

inductive RegexItem where
  | lit (c : Char)  -- a literal character, matches exactly itself
  | anyChar         -- `.`: matches any one character
  | anyRun          -- `.*`: matches any run of characters
deriving DecidableEq

/-- Parses the translated pattern into the modelled regex fragment:
literals, `.` and `.*`.  Anything else (another metacharacter, or a
quantifier on a literal) is outside the model. -/
def parseSimpleRegex : List Char → Option (List RegexItem)
  | [] => some []
  | [c] =>
    if c == '.' then some [RegexItem.anyChar]
    else if regexMetachar c then none
    else some [RegexItem.lit c]
  | c :: d :: rest =>
    if c == '.' && d == '*' then
      (parseSimpleRegex rest).map (fun items => RegexItem.anyRun :: items)
    else if c == '.' then
      (parseSimpleRegex (d :: rest)).map (fun items => RegexItem.anyChar :: items)
    else if regexMetachar c then none
    else if d == '*' then none
    else (parseSimpleRegex (d :: rest)).map (fun items => RegexItem.lit c :: items)

/-- Anchored matching of the regex fragment against a whole string (the
source anchors the pattern with `^` and `$`). -/
def regexMatch : List RegexItem → List Char → Bool
  | [], [] => true
  | [], _ :: _ => false
  | .lit _ :: _, [] => false
  | .anyChar :: _, [] => false
  | .anyRun :: items, [] => regexMatch items []
  | .lit c :: items, x :: s => c == x && regexMatch items s
  | .anyChar :: items, _ :: s => regexMatch items s
  | .anyRun :: items, x :: s => regexMatch items (x :: s) || regexMatch (.anyRun :: items) s
termination_by items s => items.length + s.length

/-- The `key.replace(/\*/g, '.*')` translation. -/
def cassandraRegexTranslate : List Char → List Char
  | [] => []
  | c :: rest => (if c == '*' then ['.', '*'] else [c]) ++ cassandraRegexTranslate rest

inductive CassFindResult where
  | keys (ks : List String)  -- `callback(null, keys)`
  | error (msg : String)     -- `callback(new Error(msg), null)`
  | indexedLookup            -- the `notKey === '*:*:*'` branch: served from the backend-private index
  | outsideModel             -- the translated pattern falls outside the modelled regex fragment
deriving DecidableEq

/-- The Cassandra `findKeys`: falsy `notKey` filters all keys by the
translated regex; `notKey === '*:*:*'` goes to the private index branch;
any other `notKey` is an error. -/
def cassandraFindKeys (storedKeys : List String) (pattern : String)
    (notKey : Option String) : CassFindResult :=
  if jsTruthyStr notKey then
    if notKey = some "*:*:*" then .indexedLookup
    else .error "Cassandra db currently only supports *:*:* as notKey"
  else
    match parseSimpleRegex (cassandraRegexTranslate pattern.data) with
    | some items => .keys (storedKeys.filter (fun k => regexMatch items k.data))
    | none => .outsideModel

/-- The regex items a glob pattern of safe literals and `*` translates
into. -/
def regexItemsOf : List Char → List RegexItem
  | [] => []
  | c :: p => (if c == '*' then RegexItem.anyRun else RegexItem.lit c) :: regexItemsOf p

/-- A glob pattern whose literal characters survive the regex translation
unchanged: every character is either the wildcard `*` or a literal that is
neither a regex metacharacter nor `.`. -/
def globSafe (p : List Char) : Bool :=
  p.all (fun c => c == '*' || (!regexMetachar c && !(c == '.')))

/-! ## Backend `close` (src/databases/mysql_db.js, lines 264-267 and
513-515; src/leveldb_db.js, lines 110-114)

The MySQL `close` clears the keepalive interval and hands the callback to
`this.db.end(callback)`; the LevelDB `close` drops the handle and calls
`callback(null)`.  The Cassandra `close` calls
`this.pool.shutdown(callback)` — but no code path ever assigns `this.pool`:
the constructor (lines 299-311) stores only settings and `init`
(lines 320-356) assigns `this.client`.  Reading `shutdown` of `undefined`
throws a `TypeError` synchronously, so the callback is never invoked. -/

structure CassandraState where
  client : Option Unit
  pool : Option Unit

/-- The Cassandra constructor: stores settings; assigns neither `client`
nor `pool`. -/
def cassandraNew : CassandraState := { client := none, pool := none }

/-- The Cassandra `init`: assigns `this.client` (and never `this.pool`). -/
def cassandraInit (s : CassandraState) : CassandraState := { s with client := some () }

inductive CloseOutcome where
  | callbackInvoked  -- completion (or a backend error) delivered through the callback
  | syncThrow        -- a synchronous exception escaped; the callback never runs
deriving DecidableEq

/-- The Cassandra `close`: reads `this.pool.shutdown`; with `pool` unset the
member access throws synchronously, otherwise `shutdown(callback)` would
report through the callback. -/
def cassandraClose (s : CassandraState) : CloseOutcome :=
  match s.pool with
  | some _ => .callbackInvoked
  | none => .syncThrow

/-- The MySQL `close`: `clearPing(); this.db.end(callback)` — the driver
invokes the callback. -/
def mysqlClose : CloseOutcome := .callbackInvoked

/-- The LevelDB `close`: `delete this.db; callback(null)`. -/
def leveldbClose : CloseOutcome := .callbackInvoked

/-! ## Key-length validation (src/databases/mysql_db.js, lines 200-207)

The MySQL `_set` guards `if (key.length > 100) throw new Error('Your Key
can only be 100 chars')` before issuing the `REPLACE`.  The facade-side
validation lives in the cache-and-buffer layer, which is not part of the
source tree, so it is modelled from the spec below. -/

/-- The MySQL backend `_set`: rejects keys longer than 100 characters,
otherwise replaces the row. -/
def mysqlSet (st : String → Option String) (key value : String) :
    Except String (String → Option String) :=
  if key.length > 100 then Except.error "Your Key can only be 100 chars"
  else Except.ok (fun k => if k = key then some value else st k)

/-- The write buffer of the cache-and-buffer layer: pending writes in
insertion order. -/
structure CBLState where
  buffer : List (String × String)

inductive SetResult where
  | keyTooLong  -- the key-too-long error, reported at submission
  | buffered    -- the write was accepted into the write buffer
deriving DecidableEq

/-- Modelled from the spec: the cache-and-buffer layer's `set`
(`lib/CacheAndBufferLayer.js` is not under `src/`).  "If any backend
declares a maximum key length (e.g., 100 bytes), `set`/`setSub` MUST fail
with a key-too-long error before the write is buffered"; "key-too-long —
static validation before buffering". -/
def cblSet (maxKeyLength : Option Nat) (st : CBLState) (key value : String) :
    SetResult × CBLState :=
  match maxKeyLength with
  | some m =>
    if key.length > m then (.keyTooLong, st)
    else (.buffered, { buffer := st.buffer ++ [(key, value)] })
  | none => (.buffered, { buffer := st.buffer ++ [(key, value)] })

/-- Modelled from the spec: `setSub` performs its read-modify-write and then
stores through `set`, so it passes the same static validation before any
write is buffered; `newValue` is the updated whole value it writes. -/
def cblSetSub (maxKeyLength : Option Nat) (st : CBLState) (key newValue : String) :
    SetResult × CBLState :=
  cblSet maxKeyLength st key newValue

/-- A 101-character key. -/
def longKey : String :=
  String.mk (List.replicate 101 'a')

/-! ## The per-key serializer (spec §4.2)

The facade routes every operation through a FIFO queue keyed by the
operation's key (src/unnamed/part_000, lines 69-93: every wrapper emits on
channel `key`); the queue discipline itself lives in the external
`channels` package, which is not part of the source tree, so it is
modelled from the specification. -/

/-- Modelled from the spec: the per-key serializer state (the `channels`
package is not under `src/`).  `queues` maps each key to its FIFO of
pending operations, the head being the operation currently running;
`starts` logs, oldest first, the operations started on each key; `emits`
logs the operations submitted on each key.  Operations are identified by
numbers. -/
structure PKSState where
  queues : String → List Nat
  starts : String → List Nat
  emits : String → List Nat

def pksInit : PKSState :=
  { queues := fun _ => [], starts := fun _ => [], emits := fun _ => [] }

def updateAt (f : String → List Nat) (k : String) (v : List Nat) :
    String → List Nat :=
  fun q => if q = k then v else f q

/-- Modelled from the spec: submitting an operation on key `k` — "if the
key's queue is empty, create it and start the operation; otherwise, append;
the operation runs when its predecessor signals completion". -/
def pksEmit (s : PKSState) (k : String) (op : Nat) : PKSState :=
  if (s.queues k).isEmpty then
    { queues := updateAt s.queues k [op]
      starts := updateAt s.starts k (s.starts k ++ [op])
      emits := updateAt s.emits k (s.emits k ++ [op]) }
  else
    { queues := updateAt s.queues k (s.queues k ++ [op])
      starts := s.starts
      emits := updateAt s.emits k (s.emits k ++ [op]) }

/-- Modelled from the spec: the running operation on `k` signals
completion — "on completion, dequeue; if the queue becomes empty, remove
it", and the next queued operation (the new head), if any, starts. -/
def pksComplete (s : PKSState) (k : String) : PKSState :=
  match s.queues k with
  | [] => s
  | [_] => { s with queues := updateAt s.queues k [] }
  | _ :: next :: rest =>
    { queues := updateAt s.queues k (next :: rest)
      starts := updateAt s.starts k (s.starts k ++ [next])
      emits := s.emits }

inductive PKSEvent where
  | emit (key : String) (op : Nat)
  | complete (key : String)

def PKSEvent.key : PKSEvent → String
  | .emit k _ => k
  | .complete k => k

def pksStep (s : PKSState) : PKSEvent → PKSState
  | .emit k op => pksEmit s k op
  | .complete k => pksComplete s k

def pksRun (events : List PKSEvent) : PKSState :=
  events.foldl pksStep pksInit

end UeberDB

namespace UeberDB

/-! ## Helper lemmas -/

mutual

theorem clone_id : ∀ v, clone v = v
  | .jnull => rfl
  | .jbool _ => rfl
  | .jnum _ => rfl
  | .jstr _ => rfl
  | .jdate _ => rfl
  | .jarr l => by rw [clone, cloneList_id]
  | .jobj l => by rw [clone, cloneProps_id]

theorem cloneList_id : ∀ l, cloneList l = l
  | [] => rfl
  | x :: xs => by rw [cloneList, clone_id, cloneList_id]

theorem cloneProps_id : ∀ l, cloneProps l = l
  | [] => rfl
  | (k, v) :: xs => by rw [cloneProps, clone_id, cloneProps_id]

end

/-- C8: constructing the facade with a falsy type argument (absent or empty
string) selects the sqlite backend and discards the given settings, while a
truthy type loads the module named by that type and keeps the settings. -/
theorem facadeNew_type_selection (dbSettings wrapperSettings : Option String) (t : String) :
    facadeNew none dbSettings wrapperSettings =
      { type := "sqlite", moduleName := "./databases/sqlite_db"
        dbSettings := none, wrapperSettings := none } ∧
    facadeNew (some "") dbSettings wrapperSettings =
      { type := "sqlite", moduleName := "./databases/sqlite_db"
        dbSettings := none, wrapperSettings := none } ∧
    (t ≠ "" →
      facadeNew (some t) dbSettings wrapperSettings =
        { type := t, moduleName := "./databases/" ++ t ++ "_db"
          dbSettings := dbSettings, wrapperSettings := wrapperSettings }) := by
  refine ⟨rfl, rfl, fun ht => ?_⟩
  simp [facadeNew, jsTruthyStr, ht]

/-- Witness for `facadeNew_type_selection` at concrete inputs. -/
theorem facadeNew_type_selection_witness :
    facadeNew (some "mysql") (some "cfg") none =
      { type := "mysql", moduleName := "./databases/mysql_db"
        dbSettings := some "cfg", wrapperSettings := none } :=
  (facadeNew_type_selection (some "cfg") none "mysql").2.2 (by decide)

/-- C9: the MySQL backend constructor forces `cache = 500`,
`writeInterval = 100`, `json = true` and `engine = 'InnoDB'` regardless of
the caller-supplied settings, and defaults `charset` to `'utf8mb4'` exactly
when the caller supplied none (a falsy charset). -/
theorem mysqlNew_overrides (s : MysqlSettingsIn) :
    (mysqlNew s).cache = some 500 ∧
    (mysqlNew s).writeInterval = some 100 ∧
    (mysqlNew s).json = some true ∧
    (mysqlNew s).engine = some "InnoDB" ∧
    (mysqlNew s).charset =
      (if jsTruthyStr s.charset then s.charset else some "utf8mb4") :=
  ⟨rfl, rfl, rfl, rfl, rfl⟩

/-- C10: in `doOperation`, the read-style branches (`get`, `getsub`,
`findKeys`) invoke the caller's result callback strictly before releasing
the per-key queue, while the write-style branches (`set`, `setsub`,
`remove`) release the per-key queue first and only then invoke the caller's
buffer-accepted callback (when one was provided). -/
theorem doOperation_callback_order (b : Bool) :
    doOperationEvents .get b = [.callerResult, .queueRelease] ∧
    doOperationEvents .getsub b = [.callerResult, .queueRelease] ∧
    doOperationEvents .findKeys b = [.callerResult, .queueRelease] ∧
    doOperationEvents .set true = [.queueRelease, .bufferAccepted] ∧
    doOperationEvents .setsub true = [.queueRelease, .bufferAccepted] ∧
    doOperationEvents .remove true = [.queueRelease, .bufferAccepted] ∧
    doOperationEvents .set false = [.queueRelease] ∧
    doOperationEvents .setsub false = [.queueRelease] ∧
    doOperationEvents .remove false = [.queueRelease] :=
  ⟨rfl, rfl, rfl, rfl, rfl, rfl, rfl, rfl, rfl⟩

/-- A fold whose step function ignores elements failing `p` may be
restricted to the `p`-filtered list. -/
theorem foldl_filter_inert {α β : Type} (p : α → Bool) (f : β → α → β)
    (hf : ∀ v a, p a = false → f v a = v) :
    ∀ (l : List α) (init : β), l.foldl f init = (l.filter p).foldl f init
  | [], _ => rfl
  | a :: t, init => by
    cases hp : p a
    · rw [List.filter_cons_of_neg (by simp [hp]), List.foldl_cons, hf init a hp,
        foldl_filter_inert p f hf t]
    · rw [List.filter_cons_of_pos (by simp [hp]), List.foldl_cons, List.foldl_cons,
        foldl_filter_inert p f hf t]

theorem opStep_inert (k : String) (v : Option String) (op : BulkOp)
    (h : (op.key == k) = false) : opStep k v op = v := by
  have hne : k ≠ op.key := by
    intro he; subst he; simp at h
  simp [opStep, hne]

theorem rowStep_inert (k : String) (v : Option String) (r : String × String)
    (h : (r.1 == k) = false) : rowStep k v r = v := by
  have hne : k ≠ r.1 := by
    intro he; subst he; simp at h
  simp [rowStep, hne]

theorem applyInOrder_apply (bulk : List BulkOp) (st : String → Option String) (k : String) :
    applyInOrder st bulk k = bulk.foldl (opStep k) (st k) := by
  induction bulk generalizing st with
  | nil => rfl
  | cons op rest ih => exact ih (applyOp st op)

theorem applyReplace_apply (rows : List (String × String)) (st : String → Option String)
    (k : String) : applyReplace st rows k = rows.foldl (rowStep k) (st k) := by
  induction rows generalizing st with
  | nil => rfl
  | cons r rest ih => exact ih (fun k => if k = r.1 then some r.2 else st k)

theorem applyInOrder_filter (bulk : List BulkOp) (st : String → Option String) (k : String) :
    applyInOrder st bulk k =
      (bulk.filter (fun op => op.key == k)).foldl (opStep k) (st k) := by
  rw [applyInOrder_apply,
    foldl_filter_inert (fun op => op.key == k) (opStep k) (fun v a ha => opStep_inert k v a ha)]

theorem mysqlReplaceRows_filter (bulk : List BulkOp) (k : String) :
    (mysqlReplaceRows bulk).filter (fun r => r.1 == k) =
      ((bulk.filter (fun op => op.key == k)).filter
          (fun op => op.type == BulkType.set)).map (fun op => (op.key, op.value)) := by
  rw [mysqlReplaceRows, List.filter_map]
  rw [List.filter_filter, List.filter_filter]
  congr 1
  apply List.filter_congr
  intro op _
  simp [Function.comp, Bool.and_comm]

theorem applyReplace_at_key (bulk : List BulkOp) (st : String → Option String) (k : String) :
    applyReplace st (mysqlReplaceRows bulk) k =
      (((bulk.filter (fun op => op.key == k)).filter
          (fun op => op.type == BulkType.set)).map (fun op => (op.key, op.value))).foldl
        (rowStep k) (st k) := by
  rw [applyReplace_apply,
    foldl_filter_inert (fun r => r.1 == k) (rowStep k) (fun v a ha => rowStep_inert k v a ha),
    mysqlReplaceRows_filter]

/-- Over a list of `set` operations, the `REPLACE` row effects coincide with
the submission-order effects. -/
theorem foldl_rowStep_eq_opStep (k : String) :
    ∀ (l : List BulkOp) (v : Option String), (∀ op ∈ l, op.type = BulkType.set) →
      (l.map (fun op => (op.key, op.value))).foldl (rowStep k) v = l.foldl (opStep k) v
  | [], _, _ => rfl
  | op :: rest, v, h => by
    rw [List.map_cons, List.foldl_cons, List.foldl_cons,
      foldl_rowStep_eq_opStep k rest _ (fun o ho => h o (List.mem_cons_of_mem op ho))]
    congr 1
    have hset := h op (List.mem_cons_self op rest)
    simp [rowStep, opStep, hset]

/-- Over a nonempty list of `remove` operations on key `k`, the
submission-order fold ends at `none`. -/
theorem foldl_opStep_remove (k : String) :
    ∀ (l : List BulkOp) (v : Option String),
      (∀ op ∈ l, op.type = BulkType.remove ∧ op.key = k) →
      l.foldl (opStep k) v = if l.isEmpty then v else none
  | [], _, _ => rfl
  | op :: rest, v, h => by
    rw [List.foldl_cons, foldl_opStep_remove k rest _ (fun o ho => h o (List.mem_cons_of_mem op ho))]
    obtain ⟨htype, hkey⟩ := h op (List.mem_cons_self op rest)
    have : opStep k v op = none := by simp [opStep, htype, hkey]
    rw [this]
    simp

theorem leveldbDoBulk_ordered (st : String → Option String) (bulk : List BulkOp) :
    leveldbDoBulk st bulk = applyInOrder st bulk := by
  induction bulk generalizing st with
  | nil => rfl
  | cons op rest ih =>
    show (leveldbBatchOf (op :: rest)).foldl applyBatchAction st = _
    rw [leveldbBatchOf, List.foldl_cons]
    have hhead : applyBatchAction st (match op.type with
        | BulkType.set => BatchAction.put op.key op.value
        | BulkType.remove => BatchAction.del op.key) = applyOp st op := by
      cases htype : op.type
      · funext k; simp [applyBatchAction, applyOp, htype]
      · funext k; simp [applyBatchAction, applyOp, htype]
    rw [hhead]
    exact ih (applyOp st op)

theorem mysqlDoBulk_ordered (deleteLast : Bool) (st : String → Option String)
    (bulk : List BulkOp) (h : noMixedKey bulk) :
    mysqlDoBulk deleteLast st bulk = applyInOrder st bulk := by
  funext k
  have hkey : ∀ op ∈ bulk.filter (fun op => op.key == k), op.key = k := by
    intro op hop
    have := (List.mem_filter.mp hop).2
    simpa using this
  by_cases hset : ∀ op ∈ bulk.filter (fun op => op.key == k), op.type = BulkType.set
  · -- every operation on `k` is a `set`: the DELETE statement misses `k` and
    -- the REPLACE rows on `k` replay the submission-order effects
    have hnotdel : k ∉ mysqlDeleteKeys bulk := by
      rw [mysqlDeleteKeys]
      intro hmem
      obtain ⟨op, hop, hopk⟩ := List.mem_map.mp hmem
      have hrem := (List.mem_filter.mp hop).2
      have hsetop := hset op (List.mem_filter.mpr ⟨(List.mem_filter.mp hop).1, by simp [hopk]⟩)
      simp [hsetop] at hrem
    have hfl : (bulk.filter (fun op => op.key == k)).filter
        (fun op => op.type == BulkType.set) = bulk.filter (fun op => op.key == k) := by
      rw [List.filter_eq_self]
      intro op hop
      simp [hset op hop]
    have hrep : ∀ st' : String → Option String,
        applyReplace st' (mysqlReplaceRows bulk) k =
          (bulk.filter (fun op => op.key == k)).foldl (opStep k) (st' k) := by
      intro st'
      rw [applyReplace_at_key, hfl, foldl_rowStep_eq_opStep k _ _ hset]
    rw [applyInOrder_filter]
    cases deleteLast
    · show applyReplace (applyDelete st (mysqlDeleteKeys bulk)) (mysqlReplaceRows bulk) k = _
      rw [hrep]
      congr 1
      show (if k ∈ mysqlDeleteKeys bulk then none else st k) = st k
      simp [hnotdel]
    · show applyDelete (applyReplace st (mysqlReplaceRows bulk)) (mysqlDeleteKeys bulk) k = _
      show (if k ∈ mysqlDeleteKeys bulk then none
        else applyReplace st (mysqlReplaceRows bulk) k) = _
      rw [if_neg hnotdel, hrep]
  · -- some operation on `k` is a `remove`: by `noMixedKey` all of them are,
    -- the REPLACE statement misses `k` and the DELETE statement hits it
    push_neg at hset
    obtain ⟨op0, hop0, hop0ne⟩ := hset
    have hop0rem : op0.type = BulkType.remove := by
      cases h0 : op0.type
      · exact absurd h0 hop0ne
      · rfl
    have hallrem : ∀ op ∈ bulk.filter (fun op => op.key == k),
        op.type = BulkType.remove ∧ op.key = k := by
      intro op hop
      refine ⟨?_, hkey op hop⟩
      have := h op (List.mem_filter.mp hop).1 op0 (List.mem_filter.mp hop0).1
        ((hkey op hop).trans (hkey op0 hop0).symm)
      rw [this, hop0rem]
    have hdel : k ∈ mysqlDeleteKeys bulk := by
      rw [mysqlDeleteKeys]
      refine List.mem_map.mpr ⟨op0, List.mem_filter.mpr ⟨(List.mem_filter.mp hop0).1, ?_⟩,
        hkey op0 hop0⟩
      simp [hop0rem]
    have hfl : (bulk.filter (fun op => op.key == k)).filter
        (fun op => op.type == BulkType.set) = [] := by
      rw [List.filter_eq_nil_iff]
      intro op hop
      simp [(hallrem op hop).1]
    have hnonempty : (bulk.filter (fun op => op.key == k)).isEmpty = false := by
      cases hl : bulk.filter (fun op => op.key == k)
      · rw [hl] at hop0; cases hop0
      · rfl
    have hrep : ∀ st' : String → Option String,
        applyReplace st' (mysqlReplaceRows bulk) k = st' k := by
      intro st'
      rw [applyReplace_at_key, hfl]
      rfl
    rw [applyInOrder_filter, foldl_opStep_remove k _ _ hallrem, hnonempty]
    cases deleteLast
    · show applyReplace (applyDelete st (mysqlDeleteKeys bulk)) (mysqlReplaceRows bulk) k = _
      rw [hrep]
      show (if k ∈ mysqlDeleteKeys bulk then none else st k) = _
      simp [hdel]
    · show applyDelete (applyReplace st (mysqlReplaceRows bulk)) (mysqlDeleteKeys bulk) k = _
      show (if k ∈ mysqlDeleteKeys bulk then none
        else applyReplace st (mysqlReplaceRows bulk) k) = _
      simp [hdel]

/-- C2 counterexample: the MySQL `_doBulk` issues its single `REPLACE` and
its single `DELETE` through `Promise.all`, so the two statements may take
effect in either order; for each order there is a bulk list whose
submission-order result differs from what the backend produces, so the
backend does not apply the list in submission order.  With the `REPLACE`
effect landing last, `[remove k, set k v]` deletes `k`; with the `DELETE`
effect landing last, `[set k v, remove k]` leaves `k = v`. -/
theorem mysqlDoBulk_not_in_order :
    mysqlDoBulk false (fun _ => none)
        [⟨BulkType.set, "k", "v"⟩, ⟨BulkType.remove, "k", ""⟩] "k" = some "v" ∧
    applyInOrder (fun _ => none)
        [⟨BulkType.set, "k", "v"⟩, ⟨BulkType.remove, "k", ""⟩] "k" = none ∧
    mysqlDoBulk true (fun _ => none)
        [⟨BulkType.remove, "k", ""⟩, ⟨BulkType.set, "k", "v"⟩] "k" = none ∧
    applyInOrder (fun _ => none)
        [⟨BulkType.remove, "k", ""⟩, ⟨BulkType.set, "k", "v"⟩] "k" = some "v" := by
  refine ⟨?_, ?_, ?_, ?_⟩ <;> decide

/-- C2 amended: the LevelDB backend applies every bulk in submission order;
the MySQL backend groups the `set` operations into one `REPLACE` and the
`remove` keys into one `DELETE` and runs the two statements concurrently,
which agrees with submission-order application — for either serialization of
the two statements — exactly on bulks in which no key carries both a `set`
and a `remove` (in particular on every bulk the write buffer emits, which
holds at most one pending operation per key). -/
theorem doBulk_submission_order (deleteLast : Bool) (st : String → Option String)
    (bulk : List BulkOp) (h : noMixedKey bulk) :
    mysqlDoBulk deleteLast st bulk = applyInOrder st bulk ∧
    leveldbDoBulk st bulk = applyInOrder st bulk :=
  ⟨mysqlDoBulk_ordered deleteLast st bulk h, leveldbDoBulk_ordered st bulk⟩

/-- Witness for `doBulk_submission_order` at a concrete bulk. -/
theorem doBulk_submission_order_witness :
    noMixedKey [⟨BulkType.set, "a", "1"⟩, ⟨BulkType.remove, "b", ""⟩] ∧
    mysqlDoBulk true (fun _ => none)
        [⟨BulkType.set, "a", "1"⟩, ⟨BulkType.remove, "b", ""⟩] =
      applyInOrder (fun _ => none)
        [⟨BulkType.set, "a", "1"⟩, ⟨BulkType.remove, "b", ""⟩] :=
  ⟨by decide,
    (doBulk_submission_order true (fun _ => none)
      [⟨BulkType.set, "a", "1"⟩, ⟨BulkType.remove, "b", ""⟩] (by decide)).1⟩

theorem filter_key_nil (rows : List (String × String)) (k : String)
    (h : ∀ w, (k, w) ∉ rows) : rows.filter (fun r => r.1 == k) = [] := by
  rw [List.filter_eq_nil_iff]
  rintro ⟨a, b⟩ hr hk
  simp only [beq_iff_eq] at hk
  subst hk
  exact h b hr

theorem filter_key_singleton (rows : List (String × String)) (k v : String)
    (hnd : (rows.map Prod.fst).Nodup) (h : (k, v) ∈ rows) :
    rows.filter (fun r => r.1 == k) = [(k, v)] := by
  induction rows with
  | nil => cases h
  | cons r rest ih =>
    rw [List.map_cons, List.nodup_cons] at hnd
    rcases List.mem_cons.mp h with heq | hmem
    · subst heq
      rw [List.filter_cons_of_pos (by simp)]
      have hrest : rest.filter (fun r => r.1 == k) = [] := by
        apply filter_key_nil
        intro w hw
        exact hnd.1 (List.mem_map.mpr ⟨(k, w), hw, rfl⟩)
      rw [hrest]
    · have hk : k ∈ rest.map Prod.fst := List.mem_map_of_mem Prod.fst hmem
      have hne : ¬(r.1 == k) = true := by
        simp only [beq_iff_eq]
        intro he
        exact hnd.1 (he ▸ hk)
      have hstep : List.filter (fun r => r.1 == k) (r :: rest) =
          List.filter (fun r => r.1 == k) rest :=
        List.filter_cons_of_neg hne
      rw [hstep]
      exact ih hnd.2 hmem

theorem mysqlGet_spec (rows : List (String × String)) (k : String)
    (hnd : (rows.map Prod.fst).Nodup) :
    (∀ v, (mysqlGet rows k = some v ↔ (k, v) ∈ rows)) ∧
    (mysqlGet rows k = none ↔ ∀ w, (k, w) ∉ rows) := by
  by_cases hex : ∃ w, (k, w) ∈ rows
  · obtain ⟨w, hw⟩ := hex
    have hget : mysqlGet rows k = some w := by
      unfold mysqlGet
      rw [filter_key_singleton rows k w hnd hw]
    refine ⟨fun v => ?_, ?_⟩
    · rw [hget]
      constructor
      · intro hv
        obtain rfl : w = v := Option.some.inj hv
        exact hw
      · intro hv
        have h1 := filter_key_singleton rows k v hnd hv
        rw [filter_key_singleton rows k w hnd hw] at h1
        have h2 : w = v := (Prod.mk.inj (List.cons.inj h1).1).2
        rw [h2]
    · rw [hget]
      constructor
      · intro hc; cases hc
      · intro hc; exact absurd hw (hc w)
  · push_neg at hex
    have hget : mysqlGet rows k = none := by
      unfold mysqlGet
      rw [filter_key_nil rows k hex]
    refine ⟨fun v => ?_, ?_⟩
    · rw [hget]
      constructor
      · intro hc; cases hc
      · intro hv; exact absurd hv (hex v)
    · rw [hget]
      exact iff_of_true rfl hex

/-- C6 counterexample: a LevelDB store holding the empty string under a
present key makes `get` return `null` (the code maps any falsy stored value
through `value ? value : null`), so `null` is returned for a present key. -/
theorem leveldbGet_present_key_null :
    storeWithEmptyString "k" = some "" ∧
    leveldbGet storeWithEmptyString "k" = none := by
  constructor <;> rfl

/-- C6 amended: the MySQL backend `get` returns the stored value exactly on
present keys and `null` exactly on absent keys (the key column is a primary
key, so row keys are unique); the LevelDB backend `get` returns the stored
value on present keys whose value is truthy (non-empty) and `null` on absent
keys, but also returns `null` for a present key whose stored value is the
empty string. -/
theorem backendGet_amended (rows : List (String × String)) (k v : String)
    (store : String → Option String) (hnd : (rows.map Prod.fst).Nodup) :
    (mysqlGet rows k = some v ↔ (k, v) ∈ rows) ∧
    (mysqlGet rows k = none ↔ ∀ w, (k, w) ∉ rows) ∧
    (store k = some v → v ≠ "" → leveldbGet store k = some v) ∧
    (store k = none → leveldbGet store k = none) ∧
    (leveldbGet store k = none → store k = none ∨ store k = some "") := by
  refine ⟨(mysqlGet_spec rows k hnd).1 v, (mysqlGet_spec rows k hnd).2, ?_, ?_, ?_⟩
  · intro h hne
    simp [leveldbGet, h, hne]
  · intro h
    simp [leveldbGet, h]
  · intro h
    unfold leveldbGet at h
    cases hsk : store k with
    | none => exact Or.inl rfl
    | some w =>
      rw [hsk] at h
      by_cases hw : w = ""
      · exact Or.inr (by rw [hw])
      · simp [hw] at h

/-- Witness for `backendGet_amended` at a concrete store. -/
theorem backendGet_amended_witness :
    (([("a", "1")] : List (String × String)).map Prod.fst).Nodup ∧
    (mysqlGet [("a", "1")] "a" = some "1" ↔ ("a", "1") ∈ [("a", "1")]) :=
  ⟨by decide, (backendGet_amended [("a", "1")] "a" "1" (fun _ => none) (by decide)).1⟩

theorem likeMatch_cons_nil (c : Char) (p : List Char) :
    likeMatch (c :: p) [] = (c == '%' && likeMatch p []) := by
  simp only [likeMatch]

theorem likeMatch_cons_cons (c : Char) (p : List Char) (x : Char) (s : List Char) :
    likeMatch (c :: p) (x :: s) =
      (if c == '\\' then
        (match p with
          | [] => x == '\\' && s.isEmpty
          | d :: p' => d == x && likeMatch p' s)
       else if c == '%' then likeMatch p (x :: s) || likeMatch (c :: p) s
       else if c == '_' then likeMatch p s
       else c == x && likeMatch p s) := by
  rw [likeMatch.eq_def]

theorem globMatch_cons_nil (c : Char) (p : List Char) :
    globMatch (c :: p) [] = (c == '*' && globMatch p []) := by
  simp only [globMatch]

theorem globMatch_cons_cons (c : Char) (p : List Char) (x : Char) (s : List Char) :
    globMatch (c :: p) (x :: s) =
      (if c == '*' then globMatch p (x :: s) || globMatch (c :: p) s
       else c == x && globMatch p s) := by
  simp only [globMatch]

/-- On a pattern without the `LIKE` metacharacters `%`, `_` and the escape
`\`, the translated `LIKE` match coincides with glob matching. -/
theorem likeMatch_translate : ∀ p s : List Char, '%' ∉ p → '_' ∉ p → '\\' ∉ p →
    likeMatch (likeTranslate p) s = globMatch p s
  | [], [], _, _, _ => by simp [likeTranslate, likeMatch, globMatch]
  | [], _ :: _, _, _, _ => by simp [likeTranslate, likeMatch, globMatch]
  | c :: p, [], hp, hu, hb => by
    have hp' : '%' ∉ p := fun h => hp (List.mem_cons_of_mem c h)
    have hu' : '_' ∉ p := fun h => hu (List.mem_cons_of_mem c h)
    have hb' : '\\' ∉ p := fun h => hb (List.mem_cons_of_mem c h)
    have ih := likeMatch_translate p [] hp' hu' hb'
    have htr : likeTranslate (c :: p) = (if c == '*' then '%' else c) :: likeTranslate p := rfl
    rw [htr, likeMatch_cons_nil, globMatch_cons_nil, ih]
    by_cases hstar : c = '*'
    · subst hstar
      simp
    · have hpc : c ≠ '%' := fun h => hp (h ▸ List.mem_cons_self c p)
      have h1 : (c == '%') = false := by simp [hpc]
      have h2 : (c == '*') = false := by simp [hstar]
      simp [h1, h2]
  | c :: p, x :: s, hp, hu, hb => by
    have hp' : '%' ∉ p := fun h => hp (List.mem_cons_of_mem c h)
    have hu' : '_' ∉ p := fun h => hu (List.mem_cons_of_mem c h)
    have hb' : '\\' ∉ p := fun h => hb (List.mem_cons_of_mem c h)
    have htr : likeTranslate (c :: p) = (if c == '*' then '%' else c) :: likeTranslate p := rfl
    rw [htr, likeMatch_cons_cons, globMatch_cons_cons]
    by_cases hstar : c = '*'
    · subst hstar
      have htr' : likeTranslate ('*' :: p) = '%' :: likeTranslate p := rfl
      have ih1 := likeMatch_translate p (x :: s) hp' hu' hb'
      have ih2 := likeMatch_translate ('*' :: p) s hp hu hb
      rw [htr'] at ih2
      simp [ih1, ih2]
    · have hpc : c ≠ '%' := fun h => hp (h ▸ List.mem_cons_self c p)
      have huc : c ≠ '_' := fun h => hu (h ▸ List.mem_cons_self c p)
      have hbc : c ≠ '\\' := fun h => hb (h ▸ List.mem_cons_self c p)
      have ih := likeMatch_translate p s hp' hu' hb'
      have hbeq : (c == '*') = false := by simp [hstar]
      have hbp : (c == '%') = false := by simp [hpc]
      have hbu : (c == '_') = false := by simp [huc]
      have hbs : (c == '\\') = false := by simp [hbc]
      rw [hbeq]
      simp [hbp, hbu, hbs, ih]
termination_by p s => p.length + s.length

/-- The first character of a translated pattern is never a bare `*` (every
pattern `*` becomes the pair `.*`). -/
theorem translate_head_ne_star (p : List Char) (d : Char) (rest : List Char)
    (h : cassandraRegexTranslate p = d :: rest) : (d == '*') = false := by
  cases p with
  | nil => simp [cassandraRegexTranslate] at h
  | cons c q =>
    by_cases hc : c = '*'
    · subst hc
      have htr : cassandraRegexTranslate ('*' :: q) = '.' :: '*' :: cassandraRegexTranslate q :=
        rfl
      rw [htr] at h
      obtain ⟨h1, -⟩ := List.cons.inj h
      rw [← h1]
      decide
    · have htr : cassandraRegexTranslate (c :: q) = c :: cassandraRegexTranslate q := by
        simp [cassandraRegexTranslate, hc]
      rw [htr] at h
      obtain ⟨h1, -⟩ := List.cons.inj h
      rw [← h1]
      simp [hc]

/-- On a glob-safe pattern the regex translation parses into the modelled
fragment: each `*` becomes an any-run item, every other character a
literal item. -/
theorem parse_translate : ∀ p : List Char, globSafe p = true →
    parseSimpleRegex (cassandraRegexTranslate p) = some (regexItemsOf p)
  | [], _ => rfl
  | c :: q, hs => by
    rw [globSafe, List.all_cons, Bool.and_eq_true] at hs
    obtain ⟨hc, hq⟩ := hs
    have ih := parse_translate q hq
    by_cases hstar : c = '*'
    · subst hstar
      have htr : cassandraRegexTranslate ('*' :: q) = '.' :: '*' :: cassandraRegexTranslate q :=
        rfl
      rw [htr]
      have hpar : parseSimpleRegex ('.' :: '*' :: cassandraRegexTranslate q) =
          (parseSimpleRegex (cassandraRegexTranslate q)).map
            (fun items => RegexItem.anyRun :: items) := by
        simp [parseSimpleRegex]
      rw [hpar, ih]
      rfl
    · rw [Bool.or_eq_true] at hc
      have hlit : (!regexMetachar c && !(c == '.')) = true := by
        rcases hc with h | h
        · exact absurd (by simpa using h) hstar
        · exact h
      rw [Bool.and_eq_true] at hlit
      have hmc : regexMetachar c = false := by simpa using hlit.1
      have hdot : (c == '.') = false := by simpa using hlit.2
      have htr : cassandraRegexTranslate (c :: q) = c :: cassandraRegexTranslate q := by
        simp [cassandraRegexTranslate, hstar]
      rw [htr]
      cases htq : cassandraRegexTranslate q with
      | nil =>
        have h0 := ih
        rw [htq] at h0
        have hzero : regexItemsOf q = [] := by
          have h1 : (some [] : Option (List RegexItem)) = some (regexItemsOf q) := h0
          exact (Option.some.inj h1).symm
        simp [parseSimpleRegex, hdot, hmc, regexItemsOf, hstar, hzero]
      | cons d rest =>
        have hd : (d == '*') = false := translate_head_ne_star q d rest htq
        have hpar : parseSimpleRegex (c :: d :: rest) =
            (parseSimpleRegex (d :: rest)).map (fun items => RegexItem.lit c :: items) := by
          simp [parseSimpleRegex, hdot, hmc, hd]
        rw [hpar, ← htq, ih]
        simp [regexItemsOf, hstar]

theorem regexMatch_lit_nil (c : Char) (items : List RegexItem) :
    regexMatch (RegexItem.lit c :: items) [] = false := by
  simp only [regexMatch]

theorem regexMatch_anyRun_nil (items : List RegexItem) :
    regexMatch (RegexItem.anyRun :: items) [] = regexMatch items [] := by
  simp only [regexMatch]

theorem regexMatch_lit_cons (c : Char) (items : List RegexItem) (x : Char) (s : List Char) :
    regexMatch (RegexItem.lit c :: items) (x :: s) = (c == x && regexMatch items s) := by
  simp only [regexMatch]

theorem regexMatch_anyRun_cons (items : List RegexItem) (x : Char) (s : List Char) :
    regexMatch (RegexItem.anyRun :: items) (x :: s) =
      (regexMatch items (x :: s) || regexMatch (RegexItem.anyRun :: items) s) := by
  simp only [regexMatch]

/-- On a glob-safe pattern the translated regex accepts exactly the strings
the glob matches. -/
theorem regexMatch_itemsOf : ∀ p s : List Char, globSafe p = true →
    regexMatch (regexItemsOf p) s = globMatch p s
  | [], [], _ => by simp [regexItemsOf, regexMatch, globMatch]
  | [], _ :: _, _ => by simp [regexItemsOf, regexMatch, globMatch]
  | c :: p, [], hs => by
    have hs0 := hs
    rw [globSafe, List.all_cons, Bool.and_eq_true] at hs0
    obtain ⟨hc, hq⟩ := hs0
    have ih := regexMatch_itemsOf p [] hq
    rw [globMatch_cons_nil]
    by_cases hstar : c = '*'
    · subst hstar
      rw [show regexItemsOf ('*' :: p) = RegexItem.anyRun :: regexItemsOf p from rfl,
        regexMatch_anyRun_nil, ih]
      simp
    · have h2 : (c == '*') = false := by simp [hstar]
      rw [show regexItemsOf (c :: p) =
          (if c == '*' then RegexItem.anyRun else RegexItem.lit c) :: regexItemsOf p from rfl,
        h2]
      simp [regexMatch_lit_nil, h2]
  | c :: p, x :: s, hs => by
    have hs0 := hs
    rw [globSafe, List.all_cons, Bool.and_eq_true] at hs0
    obtain ⟨hc, hq⟩ := hs0
    rw [globMatch_cons_cons]
    by_cases hstar : c = '*'
    · subst hstar
      have ih1 := regexMatch_itemsOf p (x :: s) hq
      have ih2 := regexMatch_itemsOf ('*' :: p) s hs
      rw [show regexItemsOf ('*' :: p) = RegexItem.anyRun :: regexItemsOf p from rfl] at ih2 ⊢
      rw [regexMatch_anyRun_cons, ih1, ih2]
      simp
    · have h2 : (c == '*') = false := by simp [hstar]
      have ih := regexMatch_itemsOf p s hq
      rw [show regexItemsOf (c :: p) =
          (if c == '*' then RegexItem.anyRun else RegexItem.lit c) :: regexItemsOf p from rfl,
        h2]
      simp [regexMatch_lit_cons, ih, h2]
termination_by p s => p.length + s.length

/-- The Cassandra `findKeys` error branch: any truthy `notKey` other than
`'*:*:*'` yields the error, whatever the store and pattern. -/
theorem cassandraFindKeys_notKey_error (storedKeys : List String) (pattern : String)
    (nk : String) (hnk : nk ≠ "") (hnkv : nk ≠ "*:*:*") :
    cassandraFindKeys storedKeys pattern (some nk) =
      CassFindResult.error "Cassandra db currently only supports *:*:* as notKey" := by
  simp [cassandraFindKeys, jsTruthyStr, hnk, hnkv]

/-- The Cassandra `findKeys` regex branch on a glob-safe pattern returns
exactly the glob-matching stored keys. -/
theorem cassandraFindKeys_regex (storedKeys : List String) (pattern : String)
    (hs : globSafe pattern.data = true) :
    cassandraFindKeys storedKeys pattern none =
      CassFindResult.keys (specFindKeys storedKeys pattern none) := by
  have hparse := parse_translate pattern.data hs
  have hfilter : storedKeys.filter (fun k => regexMatch (regexItemsOf pattern.data) k.data) =
      specFindKeys storedKeys pattern none := by
    unfold specFindKeys
    apply List.filter_congr
    intro k _
    rw [regexMatch_itemsOf pattern.data k.data hs]
    simp [Option.all]
  simp [cassandraFindKeys, jsTruthyStr, hparse, hfilter]

/-- C4 counterexample: findKeys does not implement glob matching on every
backend.  MySQL: the translation only maps `*` to `%`, so the glob-literal
`_` in `a_c` reaches `LIKE` as a one-character wildcard and selects the
stored key `abc`, and the glob-literal `\` in `a\b` acts as the `LIKE`
escape, so the pattern selects the stored key `ab`.  Cassandra: with the
literal `notKey` `x` it reports an error instead of the matching keys, and
with no `notKey` the glob-literal `.` in `a.c` reaches the translated
regex as an any-character wildcard and selects the stored key `abc`. -/
theorem findKeys_not_glob :
    (mysqlFindKeys ["abc"] "a_c" none = ["abc"] ∧ specFindKeys ["abc"] "a_c" none = []) ∧
    (mysqlFindKeys ["ab"] "a\\b" none = ["ab"] ∧ specFindKeys ["ab"] "a\\b" none = []) ∧
    (cassandraFindKeys ["x:y"] "x:*" (some "x") =
        CassFindResult.error "Cassandra db currently only supports *:*:* as notKey" ∧
      specFindKeys ["x:y"] "x:*" (some "x") = ["x:y"]) ∧
    (cassandraFindKeys ["abc"] "a.c" none = CassFindResult.keys ["abc"] ∧
      specFindKeys ["abc"] "a.c" none = []) := by
  refine ⟨⟨?_, ?_⟩, ⟨?_, ?_⟩, ⟨?_, ?_⟩, ⟨?_, ?_⟩⟩
  · simp [mysqlFindKeys, likeTranslate, likeMatch]
  · simp [specFindKeys, globMatch]
  · simp [mysqlFindKeys, likeTranslate, likeMatch]
  · simp [specFindKeys, globMatch]
  · simp [cassandraFindKeys, jsTruthyStr]
  · simp [specFindKeys, globMatch]
  · simp [cassandraFindKeys, jsTruthyStr, parseSimpleRegex, cassandraRegexTranslate,
      regexMetachar, regexMatch]
  · simp [specFindKeys, globMatch]

/-- C4 amended: for the MySQL backend, on patterns (and `notKey`, when
given) whose literal characters include no `LIKE` metacharacter (`%`, `_`
or the escape `\`), `findKeys` — realized by translating `*` to `%` in a
`LIKE` query — returns exactly the stored keys that match the glob pattern
and do not match `notKey`.  The Cassandra backend meets the contract only
in restricted forms: with a truthy `notKey` other than `'*:*:*'` it fails
with an error instead of returning keys; with no `notKey` it filters all
keys by the translated regex, which returns exactly the glob-matching
stored keys when the pattern's literal characters include no regex
metacharacter; its `notKey = '*:*:*'` branch is served from a
backend-private secondary index that the spec places outside the core
contract. -/
theorem findKeys_globs_amended (storedKeys : List String) (pattern : String)
    (notKey : Option String) (nk : String)
    (hp : '%' ∉ pattern.data ∧ '_' ∉ pattern.data ∧ '\\' ∉ pattern.data)
    (hn : ∀ t, notKey = some t → '%' ∉ t.data ∧ '_' ∉ t.data ∧ '\\' ∉ t.data)
    (hsafe : globSafe pattern.data = true)
    (hnk : nk ≠ "") (hnkv : nk ≠ "*:*:*") :
    mysqlFindKeys storedKeys pattern notKey = specFindKeys storedKeys pattern notKey ∧
    cassandraFindKeys storedKeys pattern none =
      CassFindResult.keys (specFindKeys storedKeys pattern none) ∧
    cassandraFindKeys storedKeys pattern (some nk) =
      CassFindResult.error "Cassandra db currently only supports *:*:* as notKey" := by
  refine ⟨?_, cassandraFindKeys_regex storedKeys pattern hsafe,
    cassandraFindKeys_notKey_error storedKeys pattern nk hnk hnkv⟩
  unfold mysqlFindKeys specFindKeys
  apply List.filter_congr
  intro k _
  rw [likeMatch_translate pattern.data k.data hp.1 hp.2.1 hp.2.2]
  cases notKey with
  | none => rfl
  | some t =>
    obtain ⟨h1, h2, h3⟩ := hn t rfl
    simp only [Option.all]
    rw [likeMatch_translate t.data k.data h1 h2 h3]

/-- Witness for `findKeys_globs_amended` at the pattern `pad:*` and the
`notKey` candidate `x`. -/
theorem findKeys_globs_amended_witness :
    (('%' ∉ "pad:*".data ∧ '_' ∉ "pad:*".data ∧ '\\' ∉ "pad:*".data) ∧
      globSafe "pad:*".data = true ∧ "x" ≠ "" ∧ "x" ≠ "*:*:*") ∧
    (mysqlFindKeys ["pad:1", "x"] "pad:*" none = specFindKeys ["pad:1", "x"] "pad:*" none ∧
      cassandraFindKeys ["pad:1", "x"] "pad:*" none =
        CassFindResult.keys (specFindKeys ["pad:1", "x"] "pad:*" none) ∧
      cassandraFindKeys ["pad:1", "x"] "pad:*" (some "x") =
        CassFindResult.error "Cassandra db currently only supports *:*:* as notKey") :=
  ⟨⟨by decide, by decide, by decide, by decide⟩,
    findKeys_globs_amended ["pad:1", "x"] "pad:*" none "x" (by decide)
      (fun t h => nomatch h) (by decide) (by decide) (by decide)⟩

theorem updateAt_same (f : String → List Nat) (k : String) (v : List Nat) :
    updateAt f k v k = v := by
  simp [updateAt]

theorem pksEmit_empty (s : PKSState) (k : String) (op : Nat) (h : s.queues k = []) :
    pksEmit s k op =
      { queues := updateAt s.queues k [op]
        starts := updateAt s.starts k (s.starts k ++ [op])
        emits := updateAt s.emits k (s.emits k ++ [op]) } := by
  unfold pksEmit
  rw [h]
  rfl

theorem pksEmit_nonempty (s : PKSState) (k : String) (op : Nat) (a : Nat) (q' : List Nat)
    (h : s.queues k = a :: q') :
    pksEmit s k op =
      { queues := updateAt s.queues k ((a :: q') ++ [op])
        starts := s.starts
        emits := updateAt s.emits k (s.emits k ++ [op]) } := by
  unfold pksEmit
  rw [h]
  rfl

theorem pksComplete_nil (s : PKSState) (k : String) (h : s.queues k = []) :
    pksComplete s k = s := by
  unfold pksComplete
  rw [h]

theorem pksComplete_one (s : PKSState) (k : String) (a : Nat) (h : s.queues k = [a]) :
    pksComplete s k = { s with queues := updateAt s.queues k [] } := by
  unfold pksComplete
  rw [h]

theorem pksComplete_cons (s : PKSState) (k : String) (a next : Nat) (rest : List Nat)
    (h : s.queues k = a :: next :: rest) :
    pksComplete s k =
      { queues := updateAt s.queues k (next :: rest)
        starts := updateAt s.starts k (s.starts k ++ [next])
        emits := s.emits } := by
  unfold pksComplete
  rw [h]

/-- The serializer invariant: on every key, the started operations followed
by the waiting ones (everything behind the running head) are exactly the
submitted operations, in order. -/
theorem pks_inv_step (s : PKSState)
    (hI : ∀ q, s.starts q ++ (s.queues q).tail = s.emits q) (e : PKSEvent) :
    ∀ q, (pksStep s e).starts q ++ ((pksStep s e).queues q).tail = (pksStep s e).emits q := by
  intro q
  cases e with
  | emit k op =>
    show (pksEmit s k op).starts q ++ ((pksEmit s k op).queues q).tail = (pksEmit s k op).emits q
    cases hl : s.queues k with
    | nil =>
      rw [pksEmit_empty s k op hl]
      by_cases hq : q = k
      · subst hq
        have h0 := hI q
        rw [hl] at h0
        simp only [List.tail_nil, List.append_nil] at h0
        simp [updateAt_same, h0]
      · simp [updateAt, hq]
        exact hI q
    | cons a q' =>
      rw [pksEmit_nonempty s k op a q' hl]
      by_cases hq : q = k
      · subst hq
        have h0 := hI q
        rw [hl] at h0
        simp only [List.tail_cons] at h0
        simp only [updateAt_same, List.cons_append, List.tail_cons]
        rw [← List.append_assoc, h0]
      · simp [updateAt, hq]
        exact hI q
  | complete k =>
    show (pksComplete s k).starts q ++ ((pksComplete s k).queues q).tail
        = (pksComplete s k).emits q
    cases hl : s.queues k with
    | nil =>
      rw [pksComplete_nil s k hl]
      exact hI q
    | cons a rest =>
      cases rest with
      | nil =>
        rw [pksComplete_one s k a hl]
        by_cases hq : q = k
        · subst hq
          have h0 := hI q
          rw [hl] at h0
          simp only [List.tail_cons, List.append_nil] at h0
          simp [updateAt_same, h0]
        · simp [updateAt, hq]
          exact hI q
      | cons next rest' =>
        rw [pksComplete_cons s k a next rest' hl]
        by_cases hq : q = k
        · subst hq
          have h0 := hI q
          rw [hl] at h0
          simp only [List.tail_cons] at h0
          simp only [updateAt_same, List.tail_cons]
          rw [List.append_assoc, List.singleton_append]
          exact h0
        · simp [updateAt, hq]
          exact hI q

theorem pks_inv (events : List PKSEvent) :
    ∀ q, (pksRun events).starts q ++ ((pksRun events).queues q).tail
        = (pksRun events).emits q := by
  suffices h : ∀ (es : List PKSEvent) (s : PKSState),
      (∀ q, s.starts q ++ (s.queues q).tail = s.emits q) →
      ∀ q, (es.foldl pksStep s).starts q ++ ((es.foldl pksStep s).queues q).tail
          = (es.foldl pksStep s).emits q by
    exact h events pksInit (fun q => rfl)
  intro es
  induction es with
  | nil => exact fun s hs => hs
  | cons e rest ih => exact fun s hs => ih (pksStep s e) (pks_inv_step s hs e)

/-- An event addressed to a different key changes nothing at key `k`. -/
theorem pksStep_frame (s : PKSState) (e : PKSEvent) (k : String) (h : e.key ≠ k) :
    (pksStep s e).queues k = s.queues k ∧
    (pksStep s e).starts k = s.starts k ∧
    (pksStep s e).emits k = s.emits k := by
  cases e with
  | emit q op =>
    have hk : k ≠ q := fun hh => h (by simp [PKSEvent.key, hh])
    show (pksEmit s q op).queues k = _ ∧ (pksEmit s q op).starts k = _ ∧
      (pksEmit s q op).emits k = _
    cases hl : s.queues q with
    | nil =>
      rw [pksEmit_empty s q op hl]
      simp [updateAt, hk]
    | cons a q' =>
      rw [pksEmit_nonempty s q op a q' hl]
      simp [updateAt, hk]
  | complete q =>
    have hk : k ≠ q := fun hh => h (by simp [PKSEvent.key, hh])
    show (pksComplete s q).queues k = _ ∧ (pksComplete s q).starts k = _ ∧
      (pksComplete s q).emits k = _
    cases hl : s.queues q with
    | nil =>
      rw [pksComplete_nil s q hl]
      exact ⟨rfl, rfl, rfl⟩
    | cons a rest =>
      cases rest with
      | nil =>
        rw [pksComplete_one s q a hl]
        simp [updateAt, hk]
      | cons next rest' =>
        rw [pksComplete_cons s q a next rest' hl]
        simp [updateAt, hk]

/-- C1: in the per-key serializer the facade routes every operation
through, (i) the operations started on a key are always an order-preserving
prefix of the operations submitted on it — each starts only after its
predecessor signalled completion, so same-key operations execute in
submission order; (ii) an operation submitted to an idle key starts
immediately, while on a busy key it is only queued; (iii) an event on a
different key leaves the key's queue, start log and submission log
untouched — distinct keys proceed independently. -/
theorem perKey_fifo_serialization (events : List PKSEvent) (k : String) :
    ((pksRun events).starts k <+: (pksRun events).emits k) ∧
    (∀ op, (pksEmit (pksRun events) k op).starts k =
        (if ((pksRun events).queues k).isEmpty
         then (pksRun events).starts k ++ [op]
         else (pksRun events).starts k)) ∧
    (∀ e : PKSEvent, e.key ≠ k →
        (pksStep (pksRun events) e).queues k = (pksRun events).queues k ∧
        (pksStep (pksRun events) e).starts k = (pksRun events).starts k ∧
        (pksStep (pksRun events) e).emits k = (pksRun events).emits k) := by
  refine ⟨⟨((pksRun events).queues k).tail, pks_inv events k⟩, ?_, ?_⟩
  · intro op
    cases hl : (pksRun events).queues k with
    | nil =>
      rw [pksEmit_empty _ k op hl]
      simp [updateAt_same]
    | cons a q' =>
      rw [pksEmit_nonempty _ k op a q' hl]
      simp
  · exact fun e he => pksStep_frame (pksRun events) e k he

/-- Witness for `perKey_fifo_serialization`: two operations on key `a`,
then an event on key `b`, which leaves key `a` untouched. -/
theorem perKey_fifo_serialization_witness :
    (PKSEvent.emit "b" 5).key ≠ "a" ∧
    ((pksStep (pksRun [PKSEvent.emit "a" 0, PKSEvent.emit "a" 1])
        (PKSEvent.emit "b" 5)).queues "a" =
      (pksRun [PKSEvent.emit "a" 0, PKSEvent.emit "a" 1]).queues "a" ∧
    (pksStep (pksRun [PKSEvent.emit "a" 0, PKSEvent.emit "a" 1])
        (PKSEvent.emit "b" 5)).starts "a" =
      (pksRun [PKSEvent.emit "a" 0, PKSEvent.emit "a" 1]).starts "a" ∧
    (pksStep (pksRun [PKSEvent.emit "a" 0, PKSEvent.emit "a" 1])
        (PKSEvent.emit "b" 5)).emits "a" =
      (pksRun [PKSEvent.emit "a" 0, PKSEvent.emit "a" 1]).emits "a") :=
  ⟨by decide,
    (perKey_fifo_serialization [PKSEvent.emit "a" 0, PKSEvent.emit "a" 1] "a").2.2
      (PKSEvent.emit "b" 5) (by decide)⟩

/-- C3: against a backend declaring a maximum key length (the MySQL backend
declares 100), `set` and `setSub` with a longer key fail with the
key-too-long error at submission and leave the write buffer unchanged — no
buffered write is created; the MySQL backend's own `_set` guard also
rejects such keys before issuing any SQL. -/
theorem keyTooLong_rejected_before_buffering (st : CBLState)
    (bst : String → Option String) (key value : String) (h : key.length > 100) :
    cblSet (some 100) st key value = (SetResult.keyTooLong, st) ∧
    cblSetSub (some 100) st key value = (SetResult.keyTooLong, st) ∧
    mysqlSet bst key value = Except.error "Your Key can only be 100 chars" := by
  refine ⟨?_, ?_, ?_⟩ <;> simp [cblSet, cblSetSub, mysqlSet, h]

/-- Witness for `keyTooLong_rejected_before_buffering` at a 101-character
key. -/
theorem keyTooLong_rejected_witness :
    longKey.length > 100 ∧
    cblSet (some 100) ⟨[]⟩ longKey "v" = (SetResult.keyTooLong, ⟨[]⟩) :=
  ⟨by decide,
    (keyTooLong_rejected_before_buffering ⟨[]⟩ (fun _ => none) longKey "v" (by decide)).1⟩

/-- C7: the Cassandra backend's `close` reads `this.pool.shutdown`, but no
code path ever assigns `this.pool` (the constructor stores only settings and
`init` assigns `this.client`), so after construction and `init`, `close`
throws a `TypeError` synchronously and never invokes the provided callback —
contradicting the contract its own doc comment states and that the MySQL and
LevelDB `close` implementations satisfy. -/
theorem cassandraClose_throws :
    cassandraClose (cassandraInit cassandraNew) = CloseOutcome.syncThrow ∧
    mysqlClose = CloseOutcome.callbackInvoked ∧
    leveldbClose = CloseOutcome.callbackInvoked :=
  ⟨rfl, rfl, rfl⟩

/-- C5: the facade's ingress clone produces a value deep-equal to its
argument, and a value stored by `set` (which stores `clone value`) is
recovered unchanged by a subsequent `get` on the same key: the stored value
is fixed at call time, so mutating the caller's argument afterwards cannot
change what `get` returns. -/
theorem clone_deep_equal_and_set_get
    (store : String → Option JsValue) (key : String) (value : JsValue) :
    clone value = value ∧
    facadeStoreGet (facadeStoreSet store key value) key = some value := by
  refine ⟨clone_id value, ?_⟩
  simp [facadeStoreGet, facadeStoreSet, clone_id]

end UeberDB
